import Mathlib

/-!
Shallow embedding of the quad-term utilities of `rdf-terms.js`
(`src/lib/QuadTermUtil.ts`), together with proofs of the specified
properties of pattern matching, nested traversal and path lookup.
-/

set_option maxHeartbeats 1000000

namespace RdfTerms

/-- Position names of a quad, mirroring the string union
`QuadTermName = 'subject' | 'predicate' | 'object' | 'graph'`. -/
inductive QuadTermName where
  | subject
  | predicate
  | object
  | graph
deriving DecidableEq, Repr

/-- RDFJS terms, mirroring the six `termType` variants produced by the data
factory.  A `quad` term carries its four positions directly; `equals` of the
data factory is structural equality, which coincides with propositional
equality of this type. -/
inductive Term where
  | namedNode (value : String)
  | blankNode (value : String)
  | literal (value : String) (language : String) (datatype : String)
  | var (value : String)
  | defaultGraph
  | quad (subject : Term) (predicate : Term) (object : Term) (graph : Term)
deriving DecidableEq, Repr

/-- An RDFJS quad object: four named term positions. -/
structure Quad where
  subject : Term
  predicate : Term
  object : Term
  graph : Term
deriving DecidableEq, Repr

/-- View of a quad object as a `Quad`-typed term. -/
def Quad.toTerm (q : Quad) : Term :=
  .quad q.subject q.predicate q.object q.graph

/-- Access a quad position by name, mirroring the indexing `_quad[key]`. -/
def Quad.get (q : Quad) : QuadTermName → Term
  | .subject => q.subject
  | .predicate => q.predicate
  | .object => q.object
  | .graph => q.graph

/-- The `termType` discriminator string of a term. -/
def Term.termType : Term → String
  | .namedNode _ => "NamedNode"
  | .blankNode _ => "BlankNode"
  | .literal _ _ _ => "Literal"
  | .var _ => "Variable"
  | .defaultGraph => "DefaultGraph"
  | .quad _ _ _ _ => "Quad"

/-- Whether `term.termType === 'Quad'`. -/
def Term.isQuad : Term → Bool
  | .quad _ _ _ _ => true
  | _ => false

/-- Whether `term.termType === 'Variable'`. -/
def Term.isVariable : Term → Bool
  | .var _ => true
  | _ => false

/-- Constant `QUAD_TERM_NAMES`. -/
def QUAD_TERM_NAMES : List QuadTermName :=
  [.subject, .predicate, .object, .graph]

/-- Constant `TRIPLE_TERM_NAMES`. -/
def TRIPLE_TERM_NAMES : List QuadTermName :=
  [.subject, .predicate, .object]

/-- Translation of `getTerms`: the four position values in order, with the
graph omitted iff `ignoreDefaultGraph` and the graph is the default graph. -/
def getTerms (quad : Quad) (ignoreDefaultGraph : Bool) : List Term :=
  if ignoreDefaultGraph && quad.graph.termType == "DefaultGraph" then
    [quad.subject, quad.predicate, quad.object]
  else
    [quad.subject, quad.predicate, quad.object, quad.graph]

/-- Recursive worker of `getTermsNested`: the loop body pushes a non-Quad
term as-is and expands a Quad term through the recursive call
`getTermsNested(term, ignoreDefaultGraph)`. -/
def getTermsNestedVisit : Term → Bool → List Term
  | .quad s p o g, ig =>
    getTermsNestedVisit s ig ++ getTermsNestedVisit p ig ++ getTermsNestedVisit o ig ++
      (if ig && g.termType == "DefaultGraph" then [] else getTermsNestedVisit g ig)
  | t, _ => [t]

/-- Translation of `getTermsNested`. -/
def getTermsNested (quad : Quad) (ignoreDefaultGraph : Bool) : List Term :=
  getTermsNestedVisit quad.toTerm ignoreDefaultGraph

/-- Translation of `everyTerms`: conjunction of the checker over the four
positions in order (JS `&&`). -/
def everyTerms (quad : Quad) (checker : Term → QuadTermName → Bool) : Bool :=
  checker quad.subject .subject
    && checker quad.predicate .predicate
    && checker quad.object .object
    && checker quad.graph .graph

/-- Translation of `someTerms`: disjunction of the checker over the four
positions in order (JS `||`). -/
def someTerms (quad : Quad) (checker : Term → QuadTermName → Bool) : Bool :=
  checker quad.subject .subject
    || checker quad.predicate .predicate
    || checker quad.object .object
    || checker quad.graph .graph

/-- Effect-observing translation of `everyTerms` for a side-effecting
checker: state is threaded left to right and JS `&&` short-circuits, so a
later checker runs only if all earlier ones returned true. -/
def everyTermsEff {σ : Type} (quad : Quad) (checker : σ → Term → QuadTermName → Bool × σ)
    (s0 : σ) : Bool × σ :=
  let r1 := checker s0 quad.subject .subject
  if r1.1 then
    let r2 := checker r1.2 quad.predicate .predicate
    if r2.1 then
      let r3 := checker r2.2 quad.object .object
      if r3.1 then checker r3.2 quad.graph .graph
      else (false, r3.2)
    else (false, r2.2)
  else (false, r1.2)

/-- Effect-observing translation of `someTerms`: JS `||` short-circuits, so a
later checker runs only if all earlier ones returned false. -/
def someTermsEff {σ : Type} (quad : Quad) (checker : σ → Term → QuadTermName → Bool × σ)
    (s0 : σ) : Bool × σ :=
  let r1 := checker s0 quad.subject .subject
  if r1.1 then (true, r1.2)
  else
    let r2 := checker r1.2 quad.predicate .predicate
    if r2.1 then (true, r2.2)
    else
      let r3 := checker r2.2 quad.object .object
      if r3.1 then (true, r3.2)
      else checker r3.2 quad.graph .graph

/-- Binding map of one `matchPatternMappings` call: a JS object mapping
variable names to terms, modelled as an association list with at most one
entry per key (entries are only added when the key is absent). -/
abbrev BindingMap := List (String × Term)

/-- Property lookup `map[name]` on a binding map. -/
def lookupVar : BindingMap → String → Option Term
  | [], _ => none
  | (k, v) :: rest, x => if k = x then some v else lookupVar rest x

/-- Options record of `matchPatternMappings`. -/
structure PatternOptions where
  skipVarMapping : Bool := false
  returnMappings : Bool := false

/-- Per-position step of `matchPatternMappings`, threading the shared binding
map: a Variable pattern term matches if unbound (binding it) or bound to an
equal term; a Quad pattern term requires a Quad candidate term and recursive
success; any other pattern term requires structural equality.  In the Quad
case the recursion is the source's `match(t1, t2)`, an `everyTerms`
conjunction over the four positions with JS `&&` short-circuiting. -/
def matchTermMap (opt : PatternOptions) : Term → Term → BindingMap → Bool × BindingMap
  | .var v, t2, map =>
    if opt.skipVarMapping && t2.termType == "Variable" then (true, map)
    else
      match lookupVar map v with
      | some bound => (decide (bound = t2), map)
      | none => (true, (v, t2) :: map)
  | .quad s1 p1 o1 g1, t2, map =>
    match t2 with
    | .quad s2 p2 o2 g2 =>
      let r1 := matchTermMap opt s1 s2 map
      if r1.1 then
        let r2 := matchTermMap opt p1 p2 r1.2
        if r2.1 then
          let r3 := matchTermMap opt o1 o2 r2.2
          if r3.1 then matchTermMap opt g1 g2 r3.2
          else (false, r3.2)
        else (false, r2.2)
      else (false, r1.2)
    | _ => (false, map)
  | t1, t2, map => (decide (t1 = t2), map)

/-- Inner `match(_pattern, _quad)` of `matchPatternMappings` on two quad
objects: the `everyTerms` conjunction of `matchTermMap` over the four
positions of the pattern, against `_quad[key]`, threading the shared map. -/
def matchQuadMap (opt : PatternOptions) (pattern quad : Quad) (map : BindingMap) :
    Bool × BindingMap :=
  let r1 := matchTermMap opt pattern.subject (quad.get .subject) map
  if r1.1 then
    let r2 := matchTermMap opt pattern.predicate (quad.get .predicate) r1.2
    if r2.1 then
      let r3 := matchTermMap opt pattern.object (quad.get .object) r2.2
      if r3.1 then matchTermMap opt pattern.graph (quad.get .graph) r3.2
      else (false, r3.2)
    else (false, r2.2)
  else (false, r1.2)

/-- Boolean result of `matchPatternMappings(quad, pattern, opt)`: the inner
match run on `(pattern, quad)` with an initially empty map. -/
def matchPatternMappings (quad pattern : Quad) (opt : PatternOptions) : Bool :=
  (matchQuadMap opt pattern quad []).1

/-- Result of `matchPatternMappings` under `returnMappings: true`: the final
binding map on success (`some`), and `false` (`none`) on failure. -/
def matchPatternMappingsBindings (quad pattern : Quad) (opt : PatternOptions) :
    Option BindingMap :=
  let r := matchQuadMap opt pattern quad []
  if r.1 then some r.2 else none

/-- Error thrown by `getValueNestedPath`: `Tried to get ${keys[0]} from term
of type ${term.termType}`, carrying the offending position name and the
actual term type. -/
structure PathTraversalError where
  key : QuadTermName
  termType : String
deriving DecidableEq, Repr

/-- Translation of `getValueNestedPath`: an empty path returns the term, a
non-empty path requires a Quad term and recurses into the first position,
and any other term with a non-empty path throws. -/
def getValueNestedPath : Term → List QuadTermName → Except PathTraversalError Term
  | t, [] => .ok t
  | .quad s p o g, k :: rest => getValueNestedPath ((Quad.mk s p o g).get k) rest
  | t, k :: _ => .error ⟨k, t.termType⟩

/-- Translation of `matchTerm`: term B absent, or a Variable, or both terms
Quads satisfying `matchPatternComplete` (inlined here as the conjunction
over the four pattern positions), or structural equality. -/
def matchTerm : Term → Option Term → Bool
  | _, none => true
  | termA, some termB =>
    termB.termType == "Variable"
      || (match termB, termA with
          | .quad s2 p2 o2 g2, .quad s1 p1 o1 g1 =>
            matchTerm s1 (some s2) && matchTerm p1 (some p2)
              && matchTerm o1 (some o2) && matchTerm g1 (some g2)
          | _, _ => false)
      || decide (termB = termA)

/-- Translation of `matchPattern`: conjunction of `matchTerm` over the four
positions, absent arguments being wildcards. -/
def matchPattern (quad : Quad) (subject predicate object graph : Option Term) : Bool :=
  matchTerm quad.subject subject
    && matchTerm quad.predicate predicate
    && matchTerm quad.object object
    && matchTerm quad.graph graph

/-- Translation of `matchPatternComplete`: `matchPattern` applied to the
pattern's four positions. -/
def matchPatternComplete (quad pattern : Quad) : Bool :=
  matchPattern quad (some pattern.subject) (some pattern.predicate)
    (some pattern.object) (some pattern.graph)

/-- Named-term entry `INamedTerm`. -/
structure INamedTerm where
  key : QuadTermName
  value : Term
deriving DecidableEq, Repr

/-- The `elements` record of `collectNamedTerms`: a JS object with the four
position properties, each possibly absent. -/
structure Elements where
  subject : Option Term := none
  predicate : Option Term := none
  object : Option Term := none
  graph : Option Term := none
deriving DecidableEq, Repr

/-- Property write `elements[key] = value`. -/
def Elements.set (e : Elements) : QuadTermName → Term → Elements
  | .subject, v => { e with subject := some v }
  | .predicate, v => { e with predicate := some v }
  | .object, v => { e with object := some v }
  | .graph, v => { e with graph := some v }

/-- Property read `elements[key]`. -/
def Elements.get (e : Elements) : QuadTermName → Option Term
  | .subject => e.subject
  | .predicate => e.predicate
  | .object => e.object
  | .graph => e.graph

/-- The `namedTerms.forEach(nt => elements[nt.key] = nt.value)` loop. -/
def collectElements (namedTerms : List INamedTerm) : Elements :=
  namedTerms.foldl (fun e nt => e.set nt.key nt.value) {}

/-- The `elements.x = elements.x || defaultCb('x')` block: each of the four
positions in order is filled from the callback iff it is absent (terms are
objects, hence always truthy). -/
def applyDefaults (e : Elements) (defaultCb : QuadTermName → Term) : Elements :=
  { subject := some (e.subject.getD (defaultCb .subject))
    predicate := some (e.predicate.getD (defaultCb .predicate))
    object := some (e.object.getD (defaultCb .object))
    graph := some (e.graph.getD (defaultCb .graph)) }

/-- Effect-observing form of the defaulting block for a side-effecting
callback: JS `||` short-circuits, so the callback runs exactly on the absent
positions, in the order subject, predicate, object, graph. -/
def applyDefaultsEff {σ : Type} (e : Elements) (defaultCb : σ → QuadTermName → Term × σ)
    (s0 : σ) : Elements × σ :=
  let r1 : Option Term × σ := match e.subject with
    | some t => (some t, s0)
    | none => let r := defaultCb s0 .subject; (some r.1, r.2)
  let r2 : Option Term × σ := match e.predicate with
    | some t => (some t, r1.2)
    | none => let r := defaultCb r1.2 .predicate; (some r.1, r.2)
  let r3 : Option Term × σ := match e.object with
    | some t => (some t, r2.2)
    | none => let r := defaultCb r2.2 .object; (some r.1, r.2)
  let r4 : Option Term × σ := match e.graph with
    | some t => (some t, r3.2)
    | none => let r := defaultCb r3.2 .graph; (some r.1, r.2)
  (⟨r1.1, r2.1, r3.1, r4.1⟩, r4.2)

/-- Modelled from the spec: the default data factory (the external
`rdf-data-factory` dependency, whose source is not part of this repository)
constructs a quad from the four arguments it is given without validating
them; a missing (falsy) graph argument is replaced by the default graph,
while other missing arguments are stored as-is, so the constructed quad-like
object can itself have absent positions.  The repository's own test suite
pins this behaviour: collecting named terms with a missing graph and a null
callback yields a triple in the default graph. -/
def factoryQuad (subject predicate object graph : Option Term) : Elements :=
  ⟨subject, predicate, object, some (graph.getD .defaultGraph)⟩

/-- Translation of `collectNamedTerms` (with the default data factory):
accumulate the entries into `elements`, fill absent positions from the
callback when one is supplied, and hand the four (possibly absent) values to
the factory. -/
def collectNamedTerms (namedTerms : List INamedTerm)
    (defaultCb : Option (QuadTermName → Term)) : Elements :=
  let elements := collectElements namedTerms
  let elements := match defaultCb with
    | some cb => applyDefaults elements cb
    | none => elements
  factoryQuad elements.subject elements.predicate elements.object elements.graph

/-- Translation of `getNamedTerms`. -/
def getNamedTerms (quad : Quad) : List INamedTerm :=
  [⟨.subject, quad.subject⟩, ⟨.predicate, quad.predicate⟩,
   ⟨.object, quad.object⟩, ⟨.graph, quad.graph⟩]

/-- View of the factory output when all four positions are present. -/
def Elements.toQuad : Elements → Option Quad
  | ⟨some s, some p, some o, some g⟩ => some ⟨s, p, o, g⟩
  | _ => none

/-- Recursive worker of `forEachTermsNested`: each position in order either
recurses (Quad term) or reports the term with the extended key path; the
result collects the callback invocations in call order. -/
def forEachTermsNestedVisit : Term → List QuadTermName → List (Term × List QuadTermName)
  | .quad s p o g, keys =>
    forEachTermsNestedVisit s (keys ++ [.subject])
      ++ forEachTermsNestedVisit p (keys ++ [.predicate])
      ++ forEachTermsNestedVisit o (keys ++ [.object])
      ++ forEachTermsNestedVisit g (keys ++ [.graph])
  | t, keys => [(t, keys)]

/-- Translation of `forEachTermsNested` on a quad object, as the list of
`(term, keys)` callback invocations in call order, starting from the given
key path (`[]` by default in the source). -/
def forEachTermsNested (quad : Quad) (keys : List QuadTermName) :
    List (Term × List QuadTermName) :=
  forEachTermsNestedVisit quad.toTerm keys

/-! Lemmas about the shared binding map of `matchPatternMappings`. -/

/-- Bindings already present in the map survive a matching step: the map only
ever grows, and a key is only inserted when it is absent. -/
theorem matchTermMap_preserves (opt : PatternOptions) (t1 : Term) :
    ∀ (t2 : Term) (m : BindingMap) (x : String) (s : Term),
      lookupVar m x = some s → lookupVar (matchTermMap opt t1 t2 m).2 x = some s := by
  induction t1 with
  | var v =>
    intro t2 m x s h
    simp only [matchTermMap]
    split
    · exact h
    · cases hl : lookupVar m v with
      | some bound => simpa using h
      | none =>
        simp only [lookupVar]
        split
        · rename_i hvx
          rw [hvx, h] at hl
          cases hl
        · exact h
  | quad s1 p1 o1 g1 ihs ihp iho ihg =>
    intro t2 m x s h
    cases t2 with
    | quad s2 p2 o2 g2 =>
      simp only [matchTermMap]
      have h1 := ihs s2 m x s h
      cases hb1 : (matchTermMap opt s1 s2 m).1 with
      | false => simpa [hb1] using h1
      | true =>
        have h2 := ihp p2 _ x s h1
        cases hb2 : (matchTermMap opt p1 p2 (matchTermMap opt s1 s2 m).2).1 with
        | false => simpa [hb1, hb2] using h2
        | true =>
          have h3 := iho o2 _ x s h2
          cases hb3 : (matchTermMap opt o1 o2
              (matchTermMap opt p1 p2 (matchTermMap opt s1 s2 m).2).2).1 with
          | false => simpa [hb1, hb2, hb3] using h3
          | true =>
            have h4 := ihg g2 _ x s h3
            simpa [hb1, hb2, hb3] using h4
    | namedNode v => simpa [matchTermMap] using h
    | blankNode v => simpa [matchTermMap] using h
    | literal v l d => simpa [matchTermMap] using h
    | var v => simpa [matchTermMap] using h
    | defaultGraph => simpa [matchTermMap] using h
  | namedNode v => intro t2 m x s h; simpa [matchTermMap] using h
  | blankNode v => intro t2 m x s h; simpa [matchTermMap] using h
  | literal v l d => intro t2 m x s h; simpa [matchTermMap] using h
  | defaultGraph => intro t2 m x s h; simpa [matchTermMap] using h

/-- Soundness of the shared binding map: when a match succeeds (without
`skipVarMapping`), every variable occurrence in the pattern — located by any
position path — corresponds to a candidate term at the same path, and the
final binding map maps the variable name to exactly that term. -/
theorem matchTermMap_binds (opt : PatternOptions) (hsv : opt.skipVarMapping = false)
    (t1 : Term) :
    ∀ (t2 : Term) (m : BindingMap) (ks : List QuadTermName) (x : String),
      (matchTermMap opt t1 t2 m).1 = true →
      getValueNestedPath t1 ks = .ok (.var x) →
      ∃ u, getValueNestedPath t2 ks = .ok u
        ∧ lookupVar (matchTermMap opt t1 t2 m).2 x = some u := by
  induction t1 with
  | var v =>
    intro t2 m ks x hmatch hpath
    cases ks with
    | cons k rest => simp [getValueNestedPath] at hpath
    | nil =>
      simp only [getValueNestedPath, Except.ok.injEq, Term.var.injEq] at hpath
      subst hpath
      simp only [matchTermMap, hsv, Bool.false_and, Bool.false_eq_true, if_false] at hmatch ⊢
      cases hl : lookupVar m v with
      | some bound =>
        simp only [hl] at hmatch ⊢
        simp only [decide_eq_true_eq] at hmatch
        refine ⟨t2, by simp [getValueNestedPath], ?_⟩
        simp [hl, hmatch]
      | none =>
        simp only [hl] at hmatch ⊢
        refine ⟨t2, by simp [getValueNestedPath], ?_⟩
        simp [lookupVar]
  | quad s1 p1 o1 g1 ihs ihp iho ihg =>
    intro t2 m ks x hmatch hpath
    cases t2 with
    | quad s2 p2 o2 g2 =>
      simp only [matchTermMap] at hmatch ⊢
      cases hb1 : (matchTermMap opt s1 s2 m).1 with
      | false => simp [hb1] at hmatch
      | true =>
      cases hb2 : (matchTermMap opt p1 p2 (matchTermMap opt s1 s2 m).2).1 with
      | false => simp [hb1, hb2] at hmatch
      | true =>
      cases hb3 : (matchTermMap opt o1 o2
          (matchTermMap opt p1 p2 (matchTermMap opt s1 s2 m).2).2).1 with
      | false => simp [hb1, hb2, hb3] at hmatch
      | true =>
      simp only [hb1, hb2, hb3, if_true] at hmatch ⊢
      cases ks with
      | nil => simp [getValueNestedPath] at hpath
      | cons k rest =>
        cases k with
        | subject =>
          simp only [getValueNestedPath, Quad.get] at hpath ⊢
          obtain ⟨u, hres, hlook⟩ := ihs s2 m rest x hb1 hpath
          refine ⟨u, hres, ?_⟩
          have h2 := matchTermMap_preserves opt p1 p2 _ x u hlook
          have h3 := matchTermMap_preserves opt o1 o2 _ x u h2
          exact matchTermMap_preserves opt g1 g2 _ x u h3
        | predicate =>
          simp only [getValueNestedPath, Quad.get] at hpath ⊢
          obtain ⟨u, hres, hlook⟩ := ihp p2 _ rest x hb2 hpath
          refine ⟨u, hres, ?_⟩
          have h3 := matchTermMap_preserves opt o1 o2 _ x u hlook
          exact matchTermMap_preserves opt g1 g2 _ x u h3
        | object =>
          simp only [getValueNestedPath, Quad.get] at hpath ⊢
          obtain ⟨u, hres, hlook⟩ := iho o2 _ rest x hb3 hpath
          exact ⟨u, hres, matchTermMap_preserves opt g1 g2 _ x u hlook⟩
        | graph =>
          simp only [getValueNestedPath, Quad.get] at hpath ⊢
          exact ihg g2 _ rest x hmatch hpath
    | namedNode v => simp [matchTermMap] at hmatch
    | blankNode v => simp [matchTermMap] at hmatch
    | literal v l d => simp [matchTermMap] at hmatch
    | var v => simp [matchTermMap] at hmatch
    | defaultGraph => simp [matchTermMap] at hmatch
  | namedNode v =>
    intro t2 m ks x hmatch hpath
    cases ks <;> simp [getValueNestedPath] at hpath
  | blankNode v =>
    intro t2 m ks x hmatch hpath
    cases ks <;> simp [getValueNestedPath] at hpath
  | literal v l d =>
    intro t2 m ks x hmatch hpath
    cases ks <;> simp [getValueNestedPath] at hpath
  | defaultGraph =>
    intro t2 m ks x hmatch hpath
    cases ks <;> simp [getValueNestedPath] at hpath

/-- The inner quad match is the term match of the two quads viewed as terms. -/
theorem matchQuadMap_eq_toTerm (opt : PatternOptions) (pattern quad : Quad)
    (m : BindingMap) :
    matchQuadMap opt pattern quad m = matchTermMap opt pattern.toTerm quad.toTerm m := by
  cases pattern
  cases quad
  rfl

/-- On a pattern term that is neither a Variable nor a Quad, a matching step
is a pure structural-equality test that leaves the map unchanged. -/
theorem matchTermMap_concrete (opt : PatternOptions) (t t2 : Term) (m : BindingMap)
    (hv : t.isVariable = false) (hq : t.isQuad = false) :
    matchTermMap opt t t2 m = (decide (t = t2), m) := by
  cases t <;> simp_all [matchTermMap, Term.isVariable, Term.isQuad]

/-- On a candidate term that is a Variable, a matching step with a pattern
term that is neither a Variable nor itself that same Variable fails when the
pattern term is not a Variable. -/
theorem matchTermMap_nonvar_var (opt : PatternOptions) (t : Term) (y : String)
    (m : BindingMap) (hv : t.isVariable = false) :
    matchTermMap opt t (.var y) m = (false, m) := by
  cases t <;> simp_all [matchTermMap, Term.isVariable]

/-- C1: matchPatternMappings enforces one shared binding map across all
positions and nesting depths: if the same variable name occurs at two paths
of the pattern and the candidate terms at those paths are not structurally
equal, the match fails; and in the instance (?x, p, ?x, g) against
(a, p, b, g) the match fails when a ≠ b, while with candidate (a, p, a, g)
it succeeds and binds x to a. -/
theorem matchPatternMappings_shared_binding_consistency :
    (∀ (qd pat : Quad) (ks1 ks2 : List QuadTermName) (x : String) (u v : Term),
      getValueNestedPath pat.toTerm ks1 = .ok (.var x) →
      getValueNestedPath pat.toTerm ks2 = .ok (.var x) →
      getValueNestedPath qd.toTerm ks1 = .ok u →
      getValueNestedPath qd.toTerm ks2 = .ok v →
      u ≠ v →
      matchPatternMappings qd pat {} = false)
    ∧ (∀ (x : String) (a b pp gg : Term),
      pp.isVariable = false → pp.isQuad = false →
      gg.isVariable = false → gg.isQuad = false →
      (a ≠ b → matchPatternMappings ⟨a, pp, b, gg⟩ ⟨.var x, pp, .var x, gg⟩ {} = false)
      ∧ matchPatternMappingsBindings ⟨a, pp, a, gg⟩ ⟨.var x, pp, .var x, gg⟩
          { returnMappings := true } = some [(x, a)]) := by
  constructor
  · intro qd pat ks1 ks2 x u v hp1 hp2 hq1 hq2 hne
    cases hb : matchPatternMappings qd pat {} with
    | false => rfl
    | true =>
      exfalso
      have hmatch : (matchTermMap {} pat.toTerm qd.toTerm []).1 = true := by
        have := hb
        unfold matchPatternMappings at this
        rwa [matchQuadMap_eq_toTerm] at this
      obtain ⟨u1, hru1, hl1⟩ := matchTermMap_binds {} rfl pat.toTerm qd.toTerm [] ks1 x hmatch hp1
      obtain ⟨u2, hru2, hl2⟩ := matchTermMap_binds {} rfl pat.toTerm qd.toTerm [] ks2 x hmatch hp2
      have heq1 : u = u1 := Except.ok.inj (hq1.symm.trans hru1)
      have heq2 : v = u2 := Except.ok.inj (hq2.symm.trans hru2)
      have : u1 = u2 := Option.some.inj (hl1.symm.trans hl2)
      exact hne (heq1.trans (this.trans heq2.symm))
  · intro x a b pp gg hppv hppq hggv hggq
    have hstep1 : matchTermMap ({} : PatternOptions) (.var x) a [] = (true, [(x, a)]) := by
      simp [matchTermMap, lookupVar]
    have hstep1' : matchTermMap ({ returnMappings := true } : PatternOptions)
        (.var x) a [] = (true, [(x, a)]) := by
      simp [matchTermMap, lookupVar]
    constructor
    · intro hne
      unfold matchPatternMappings matchQuadMap
      simp only [Quad.get, hstep1,
        matchTermMap_concrete _ pp _ _ hppv hppq]
      have hstep3 : matchTermMap ({} : PatternOptions) (.var x) b [(x, a)]
          = (false, [(x, a)]) := by
        simp [matchTermMap, lookupVar, hne]
      simp [hstep3]
    · unfold matchPatternMappingsBindings matchQuadMap
      simp only [Quad.get, hstep1',
        matchTermMap_concrete _ pp _ _ hppv hppq]
      have hstep3 : matchTermMap ({ returnMappings := true } : PatternOptions)
          (.var x) a [(x, a)] = (true, [(x, a)]) := by
        simp [matchTermMap, lookupVar]
      simp [hstep3, matchTermMap_concrete _ gg _ _ hggv hggq]

/-- Witness for C1: the pattern (?x, p, ?x, g) fails against (a, p, b, g)
and succeeds against (a, p, a, g) with the binding x to a. -/
theorem matchPatternMappings_shared_binding_consistency_witness :
    matchPatternMappings
        ⟨.namedNode "a", .namedNode "p", .namedNode "b", .namedNode "g"⟩
        ⟨.var "x", .namedNode "p", .var "x", .namedNode "g"⟩ {} = false
    ∧ matchPatternMappingsBindings
        ⟨.namedNode "a", .namedNode "p", .namedNode "a", .namedNode "g"⟩
        ⟨.var "x", .namedNode "p", .var "x", .namedNode "g"⟩
        { returnMappings := true } = some [("x", .namedNode "a")] :=
  ⟨matchPatternMappings_shared_binding_consistency.1 _ _ [.subject] [.object] "x"
      (.namedNode "a") (.namedNode "b") rfl rfl rfl rfl (by decide),
   (matchPatternMappings_shared_binding_consistency.2 "x" (.namedNode "a")
      (.namedNode "b") (.namedNode "p") (.namedNode "g") rfl rfl rfl rfl).2⟩

/-- Whether a term contains no Variable anywhere (including inside nested
quads). -/
def Term.termNoVars : Term → Bool
  | .var _ => false
  | .quad s p o g => s.termNoVars && p.termNoVars && o.termNoVars && g.termNoVars
  | _ => true

/-- Matching a term against itself succeeds whenever the current map only
binds variable names to themselves, and this invariant is preserved. -/
theorem matchTermMap_self (opt : PatternOptions) (t : Term) :
    ∀ m : BindingMap, (∀ y s, lookupVar m y = some s → s = .var y) →
      (matchTermMap opt t t m).1 = true
      ∧ (∀ y s, lookupVar (matchTermMap opt t t m).2 y = some s → s = .var y) := by
  induction t with
  | var v =>
    intro m hm
    simp only [matchTermMap]
    split
    · exact ⟨rfl, hm⟩
    · cases hl : lookupVar m v with
      | some bound =>
        have hb : bound = .var v := hm v bound hl
        subst hb
        simp only [hl]
        exact ⟨by simp, hm⟩
      | none =>
        simp only [hl]
        refine ⟨by simp, fun y s hy => ?_⟩
        revert hy
        simp only [lookupVar]
        split
        · rename_i hvy
          intro hy
          rw [← hvy]
          exact (Option.some.inj hy).symm
        · exact hm y s
  | quad s p o g ihs ihp iho ihg =>
    intro m hm
    obtain ⟨hs1, hm1⟩ := ihs m hm
    obtain ⟨hp1, hm2⟩ := ihp _ hm1
    obtain ⟨ho1, hm3⟩ := iho _ hm2
    obtain ⟨hg1, hm4⟩ := ihg _ hm3
    simp only [matchTermMap, hs1, hp1, ho1, if_true]
    exact ⟨hg1, hm4⟩
  | namedNode v => intro m hm; exact ⟨by simp [matchTermMap], by simpa [matchTermMap] using hm⟩
  | blankNode v => intro m hm; exact ⟨by simp [matchTermMap], by simpa [matchTermMap] using hm⟩
  | literal v l d => intro m hm; exact ⟨by simp [matchTermMap], by simpa [matchTermMap] using hm⟩
  | defaultGraph => intro m hm; exact ⟨by simp [matchTermMap], by simpa [matchTermMap] using hm⟩

/-- Matching a variable-free term against itself succeeds and leaves the
map untouched. -/
theorem matchTermMap_self_noVars (opt : PatternOptions) (t : Term) :
    ∀ m : BindingMap, Term.termNoVars t = true → matchTermMap opt t t m = (true, m) := by
  induction t with
  | var v => intro m hnv; simp [Term.termNoVars] at hnv
  | quad s p o g ihs ihp iho ihg =>
    intro m hnv
    simp only [Term.termNoVars, Bool.and_eq_true] at hnv
    obtain ⟨⟨⟨hs, hp⟩, ho⟩, hg⟩ := hnv
    simp [matchTermMap, ihs _ hs, ihp _ hp, iho _ ho, ihg _ hg]
  | namedNode v => intro m hnv; simp [matchTermMap]
  | blankNode v => intro m hnv; simp [matchTermMap]
  | literal v l d => intro m hnv; simp [matchTermMap]
  | defaultGraph => intro m hnv; simp [matchTermMap]

/-- C2: matching any quad (nested or not) against itself succeeds, and when
the quad contains no Variable anywhere, the binding map requested through
returnMappings is empty. -/
theorem matchPatternMappings_reflexive :
    (∀ q : Quad, matchPatternMappings q q {} = true)
    ∧ (∀ q : Quad, Term.termNoVars q.toTerm = true →
        matchPatternMappingsBindings q q { returnMappings := true } = some []) := by
  constructor
  · intro q
    unfold matchPatternMappings
    rw [matchQuadMap_eq_toTerm]
    exact (matchTermMap_self {} q.toTerm [] (by simp [lookupVar])).1
  · intro q hnv
    unfold matchPatternMappingsBindings
    rw [matchQuadMap_eq_toTerm]
    rw [matchTermMap_self_noVars _ q.toTerm [] hnv]
    simp

/-- Witness for C2: a concrete nested quad matches itself, with an empty
returned binding map. -/
theorem matchPatternMappings_reflexive_witness :
    matchPatternMappings
        ⟨.quad (.namedNode "s2") (.namedNode "p2") (.namedNode "o2") (.namedNode "g2"),
         .namedNode "p", .namedNode "o", .namedNode "g"⟩
        ⟨.quad (.namedNode "s2") (.namedNode "p2") (.namedNode "o2") (.namedNode "g2"),
         .namedNode "p", .namedNode "o", .namedNode "g"⟩ {} = true
    ∧ matchPatternMappingsBindings
        ⟨.quad (.namedNode "s2") (.namedNode "p2") (.namedNode "o2") (.namedNode "g2"),
         .namedNode "p", .namedNode "o", .namedNode "g"⟩
        ⟨.quad (.namedNode "s2") (.namedNode "p2") (.namedNode "o2") (.namedNode "g2"),
         .namedNode "p", .namedNode "o", .namedNode "g"⟩
        { returnMappings := true } = some [] :=
  ⟨matchPatternMappings_reflexive.1 _, matchPatternMappings_reflexive.2 _ (by decide)⟩

/-- C3: a pattern of four pairwise-distinct variables matches any quad; in
the reverse direction, a ground-positioned quad used as the pattern never
matches a quad of variables when none of its four terms is a Variable. -/
theorem matchPatternMappings_variable_directional :
    (∀ (G : Quad) (x1 x2 x3 x4 : String),
      x1 ≠ x2 → x1 ≠ x3 → x1 ≠ x4 → x2 ≠ x3 → x2 ≠ x4 → x3 ≠ x4 →
      matchPatternMappings G ⟨.var x1, .var x2, .var x3, .var x4⟩ {} = true)
    ∧ (∀ (G : Quad) (x1 x2 x3 x4 : String),
      G.subject.isVariable = false → G.predicate.isVariable = false →
      G.object.isVariable = false → G.graph.isVariable = false →
      matchPatternMappings ⟨.var x1, .var x2, .var x3, .var x4⟩ G {} = false) := by
  constructor
  · intro G x1 x2 x3 x4 h12 h13 h14 h23 h24 h34
    unfold matchPatternMappings matchQuadMap
    simp [matchTermMap, lookupVar, Quad.get, h12, h13, h14, h23, h24, h34]
  · intro G x1 x2 x3 x4 hs hp ho hg
    unfold matchPatternMappings matchQuadMap
    simp only [Quad.get, matchTermMap_nonvar_var _ _ _ _ hs]
    simp

/-- Witness for C3: the all-variables pattern matches a concrete ground
quad, and the reverse match fails. -/
theorem matchPatternMappings_variable_directional_witness :
    matchPatternMappings ⟨.namedNode "s", .namedNode "p", .namedNode "o", .namedNode "g"⟩
        ⟨.var "a", .var "b", .var "c", .var "d"⟩ {} = true
    ∧ matchPatternMappings ⟨.var "a", .var "b", .var "c", .var "d"⟩
        ⟨.namedNode "s", .namedNode "p", .namedNode "o", .namedNode "g"⟩ {} = false :=
  ⟨matchPatternMappings_variable_directional.1 _ "a" "b" "c" "d" (by decide) (by decide)
      (by decide) (by decide) (by decide) (by decide),
   matchPatternMappings_variable_directional.2 _ "a" "b" "c" "d" rfl rfl rfl rfl⟩

/-! Lemmas about the nested traversal. -/

/-- Every visit reported by the nested traversal carries the starting key
path as a prefix, its term is a non-Quad leaf resolvable at the reported
path relative to the visited term, and the extension is non-empty when the
visited term is a Quad. -/
theorem forEachTermsNestedVisit_sound (t : Term) :
    ∀ (keys : List QuadTermName) (e : Term × List QuadTermName),
      e ∈ forEachTermsNestedVisit t keys →
      ∃ suffix, e.2 = keys ++ suffix
        ∧ getValueNestedPath t suffix = .ok e.1
        ∧ e.1.isQuad = false
        ∧ (t.isQuad = true → suffix ≠ []) := by
  induction t with
  | quad s p o g ihs ihp iho ihg =>
    intro keys e he
    simp only [forEachTermsNestedVisit, List.mem_append] at he
    rcases he with ((he | he) | he) | he
    · obtain ⟨suf, hsuf, hres, hleaf, _⟩ := ihs _ e he
      exact ⟨.subject :: suf, by simp [hsuf], by simpa [getValueNestedPath, Quad.get] using hres,
        hleaf, by simp⟩
    · obtain ⟨suf, hsuf, hres, hleaf, _⟩ := ihp _ e he
      exact ⟨.predicate :: suf, by simp [hsuf], by simpa [getValueNestedPath, Quad.get] using hres,
        hleaf, by simp⟩
    · obtain ⟨suf, hsuf, hres, hleaf, _⟩ := iho _ e he
      exact ⟨.object :: suf, by simp [hsuf], by simpa [getValueNestedPath, Quad.get] using hres,
        hleaf, by simp⟩
    · obtain ⟨suf, hsuf, hres, hleaf, _⟩ := ihg _ e he
      exact ⟨.graph :: suf, by simp [hsuf], by simpa [getValueNestedPath, Quad.get] using hres,
        hleaf, by simp⟩
  | namedNode v =>
    intro keys e he
    simp only [forEachTermsNestedVisit, List.mem_singleton] at he
    subst he
    exact ⟨[], by simp, by simp [getValueNestedPath], rfl, by simp [Term.isQuad]⟩
  | blankNode v =>
    intro keys e he
    simp only [forEachTermsNestedVisit, List.mem_singleton] at he
    subst he
    exact ⟨[], by simp, by simp [getValueNestedPath], rfl, by simp [Term.isQuad]⟩
  | literal v l d =>
    intro keys e he
    simp only [forEachTermsNestedVisit, List.mem_singleton] at he
    subst he
    exact ⟨[], by simp, by simp [getValueNestedPath], rfl, by simp [Term.isQuad]⟩
  | var v =>
    intro keys e he
    simp only [forEachTermsNestedVisit, List.mem_singleton] at he
    subst he
    exact ⟨[], by simp, by simp [getValueNestedPath], rfl, by simp [Term.isQuad]⟩
  | defaultGraph =>
    intro keys e he
    simp only [forEachTermsNestedVisit, List.mem_singleton] at he
    subst he
    exact ⟨[], by simp, by simp [getValueNestedPath], rfl, by simp [Term.isQuad]⟩

/-- C4: forEachTermsNested visits leaves depth-first in position order
subject, predicate, object, graph, fully recursing into a nested quad
before the next sibling (shown on the quad (s, p, (s2,p2,o2,g2), g), whose
leaves come out as s, p, s2, p2, o2, g2, g with their full paths), and each
reported leaf is a non-Quad term that resolves at its reported path from
the root, a path of length at least one (nesting depth plus one). -/
theorem forEachTermsNested_depth_first_order :
    (forEachTermsNested
        ⟨.namedNode "s", .namedNode "p",
         .quad (.namedNode "s2") (.namedNode "p2") (.namedNode "o2") (.namedNode "g2"),
         .namedNode "g"⟩ [] =
      [(.namedNode "s", [.subject]),
       (.namedNode "p", [.predicate]),
       (.namedNode "s2", [.object, .subject]),
       (.namedNode "p2", [.object, .predicate]),
       (.namedNode "o2", [.object, .object]),
       (.namedNode "g2", [.object, .graph]),
       (.namedNode "g", [.graph])])
    ∧ (∀ (q : Quad) (e : Term × List QuadTermName),
        e ∈ forEachTermsNested q [] →
        getValueNestedPath q.toTerm e.2 = .ok e.1
          ∧ e.1.isQuad = false
          ∧ 1 ≤ e.2.length) := by
  refine ⟨rfl, ?_⟩
  intro q e he
  obtain ⟨suf, hsuf, hres, hleaf, hne⟩ :=
    forEachTermsNestedVisit_sound q.toTerm [] e he
  simp only [List.nil_append] at hsuf
  subst hsuf
  refine ⟨hres, hleaf, ?_⟩
  exact List.length_pos.mpr (hne (by cases q; rfl))

/-- Witness for C4: the leaf s2 of the example quad is reported at the path
object.subject, resolves there, and has a path of length at least one. -/
theorem forEachTermsNested_depth_first_order_witness :
    getValueNestedPath
        (Quad.toTerm ⟨.namedNode "s", .namedNode "p",
          .quad (.namedNode "s2") (.namedNode "p2") (.namedNode "o2") (.namedNode "g2"),
          .namedNode "g"⟩) [.object, .subject] = .ok (.namedNode "s2")
    ∧ Term.isQuad (.namedNode "s2") = false
    ∧ 1 ≤ ([QuadTermName.object, .subject] : List QuadTermName).length :=
  forEachTermsNested_depth_first_order.2
    ⟨.namedNode "s", .namedNode "p",
     .quad (.namedNode "s2") (.namedNode "p2") (.namedNode "o2") (.namedNode "g2"),
     .namedNode "g"⟩
    (.namedNode "s2", [.object, .subject]) (by decide)

/-- A failing path lookup exhibits a step where the current term is not a
Quad although path elements remain. -/
theorem getValueNestedPath_error_split :
    ∀ (keys : List QuadTermName) (t : Term),
      (∃ e, getValueNestedPath t keys = .error e) →
      ∃ pre k post u, keys = pre ++ k :: post
        ∧ getValueNestedPath t pre = .ok u ∧ u.isQuad = false := by
  intro keys
  induction keys with
  | nil =>
    intro t ⟨e, he⟩
    simp [getValueNestedPath] at he
  | cons k rest ih =>
    intro t he
    cases t with
    | quad s p o g =>
      have he' : ∃ e, getValueNestedPath ((Quad.mk s p o g).get k) rest = .error e := by
        simpa [getValueNestedPath] using he
      obtain ⟨pre, k2, post, u, hkeys, hres, hq⟩ := ih _ he'
      refine ⟨k :: pre, k2, post, u, by simp [hkeys], ?_, hq⟩
      simpa [getValueNestedPath] using hres
    | namedNode v =>
      exact ⟨[], k, rest, .namedNode v, rfl, by simp [getValueNestedPath], rfl⟩
    | blankNode v =>
      exact ⟨[], k, rest, .blankNode v, rfl, by simp [getValueNestedPath], rfl⟩
    | literal v l d =>
      exact ⟨[], k, rest, .literal v l d, rfl, by simp [getValueNestedPath], rfl⟩
    | var v =>
      exact ⟨[], k, rest, .var v, rfl, by simp [getValueNestedPath], rfl⟩
    | defaultGraph =>
      exact ⟨[], k, rest, .defaultGraph, rfl, by simp [getValueNestedPath], rfl⟩

/-- A non-Quad term reached by a proper prefix of the path makes the whole
lookup fail. -/
theorem getValueNestedPath_error_of_split :
    ∀ (pre : List QuadTermName) (t : Term) (k : QuadTermName) (post : List QuadTermName)
      (u : Term), getValueNestedPath t pre = .ok u → u.isQuad = false →
      ∃ e, getValueNestedPath t (pre ++ k :: post) = .error e := by
  intro pre
  induction pre with
  | nil =>
    intro t k post u hres hq
    simp only [getValueNestedPath, Except.ok.injEq] at hres
    subst hres
    cases t <;> simp_all [Term.isQuad, getValueNestedPath]
  | cons k0 pre' ih =>
    intro t k post u hres hq
    cases t with
    | quad s p o g =>
      simp only [getValueNestedPath] at hres
      obtain ⟨e, he⟩ := ih _ k post u hres hq
      exact ⟨e, by simpa [getValueNestedPath] using he⟩
    | namedNode v => simp [getValueNestedPath] at hres
    | blankNode v => simp [getValueNestedPath] at hres
    | literal v l d => simp [getValueNestedPath] at hres
    | var v => simp [getValueNestedPath] at hres
    | defaultGraph => simp [getValueNestedPath] at hres

/-- C5: getValueNestedPath returns the term itself on an empty path,
recurses through the named position of a Quad on a non-empty path, throws
the path-traversal error carrying the offending position name and the
actual termType when the current term is not a Quad while path elements
remain, and fails in exactly those situations. -/
theorem getValueNestedPath_spec :
    (∀ t : Term, getValueNestedPath t [] = .ok t)
    ∧ (∀ (q : Quad) (k : QuadTermName) (rest : List QuadTermName),
        getValueNestedPath q.toTerm (k :: rest) = getValueNestedPath (q.get k) rest)
    ∧ (∀ (t : Term) (k : QuadTermName) (rest : List QuadTermName), t.isQuad = false →
        getValueNestedPath t (k :: rest) = .error ⟨k, t.termType⟩)
    ∧ (∀ (t : Term) (keys : List QuadTermName),
        (∃ e, getValueNestedPath t keys = .error e)
          ↔ ∃ pre k post u, keys = pre ++ k :: post
              ∧ getValueNestedPath t pre = .ok u ∧ u.isQuad = false) := by
  refine ⟨fun t => by simp [getValueNestedPath], ?_, ?_, ?_⟩
  · intro q k rest
    cases q
    rfl
  · intro t k rest ht
    cases t <;> simp_all [Term.isQuad, getValueNestedPath]
  · intro t keys
    constructor
    · exact getValueNestedPath_error_split keys t
    · rintro ⟨pre, k, post, u, hkeys, hres, hq⟩
      subst hkeys
      exact getValueNestedPath_error_of_split pre t k post u hres hq

/-- Witness for C5: looking up subject.predicate in a nested quad returns
the inner predicate, and continuing a path past the non-Quad predicate
position throws the error naming the attempted position and the actual
termType NamedNode. -/
theorem getValueNestedPath_spec_witness :
    getValueNestedPath
        (Quad.toTerm ⟨.quad (.namedNode "s") (.namedNode "TREASURE") (.namedNode "o") (.namedNode "g"),
          .namedNode "p", .namedNode "o", .namedNode "g"⟩)
        [.subject, .predicate] = .ok (.namedNode "TREASURE")
    ∧ getValueNestedPath (.namedNode "p") [.object] =
        .error ⟨.object, Term.termType (.namedNode "p")⟩ := by
  constructor
  · have h :=
      (getValueNestedPath_spec.2.1
        ⟨.quad (.namedNode "s") (.namedNode "TREASURE") (.namedNode "o") (.namedNode "g"),
         .namedNode "p", .namedNode "o", .namedNode "g"⟩ .subject [.predicate])
    rw [h]
    rfl
  · exact getValueNestedPath_spec.2.2.1 (.namedNode "p") .object [] rfl

/-- C6: collecting the named terms of any quad (no default callback,
default factory) reproduces the quad: the factory receives exactly the four
original terms and the constructed quad is structurally equal to the
original. -/
theorem collectNamedTerms_getNamedTerms_roundtrip (q : Quad) :
    collectNamedTerms (getNamedTerms q) none =
      ⟨some q.subject, some q.predicate, some q.object, some q.graph⟩
    ∧ (collectNamedTerms (getNamedTerms q) none).toQuad = some q := by
  cases q
  exact ⟨rfl, rfl⟩

/-- A concrete quad whose positions are four distinct named nodes. -/
def exampleQuad : Quad :=
  ⟨.namedNode "s", .namedNode "p", .namedNode "o", .namedNode "g"⟩

/-- C7 counterexample: with a side-effecting checker that counts its
invocations, everyTerms on an always-false checker and someTerms on an
always-true checker invoke the checker exactly once, not on all four
positions: JS && and || short-circuit. -/
theorem everyTerms_someTerms_short_circuit_counterexample :
    (everyTermsEff exampleQuad (fun (n : Nat) _ _ => (false, n + 1)) 0).2 = 1
    ∧ (everyTermsEff exampleQuad (fun (n : Nat) _ _ => (false, n + 1)) 0).2 ≠ 4
    ∧ (someTermsEff exampleQuad (fun (n : Nat) _ _ => (true, n + 1)) 0).2 = 1
    ∧ (someTermsEff exampleQuad (fun (n : Nat) _ _ => (true, n + 1)) 0).2 ≠ 4 := by
  exact ⟨rfl, by decide, rfl, by decide⟩

/-- Number of checker invocations performed by everyTerms: positions are
tried in order and evaluation stops at the first false. -/
def everyTermsStops (q : Quad) (checker : Term → QuadTermName → Bool) : Nat :=
  if checker q.subject .subject = false then 1
  else if checker q.predicate .predicate = false then 2
  else if checker q.object .object = false then 3
  else 4

/-- Number of checker invocations performed by someTerms: positions are
tried in order and evaluation stops at the first true. -/
def someTermsStops (q : Quad) (checker : Term → QuadTermName → Bool) : Nat :=
  if checker q.subject .subject = true then 1
  else if checker q.predicate .predicate = true then 2
  else if checker q.object .object = true then 3
  else 4

/-- C7 amended: everyTerms and someTerms evaluate the checker on the
positions in the fixed order subject, predicate, object, graph, but
short-circuit: everyTerms stops at the first false and someTerms at the
first true, so a side-effecting checker observes exactly the positions up
to and including the deciding one (all four only when no early decision
occurs), while the boolean result agrees with the pure conjunction and
disjunction. -/
theorem everyTerms_someTerms_invocations (q : Quad) (p : Term → QuadTermName → Bool) :
    everyTermsEff q (fun (n : Nat) t k => (p t k, n + 1)) 0
      = (everyTerms q p, everyTermsStops q p)
    ∧ someTermsEff q (fun (n : Nat) t k => (p t k, n + 1)) 0
      = (someTerms q p, someTermsStops q p) := by
  cases hs : p q.subject .subject <;> cases hp : p q.predicate .predicate <;>
    cases ho : p q.object .object <;> cases hg : p q.graph .graph <;>
      simp [everyTermsEff, someTermsEff, everyTerms, someTerms,
        everyTermsStops, someTermsStops, hs, hp, ho, hg]

/-- C8 counterexample: collecting named terms with a missing subject and no
default callback raises no error and produces a partial result: a quad
object whose subject is absent. -/
theorem collectNamedTerms_missing_no_error_counterexample :
    collectNamedTerms
        [⟨.predicate, .namedNode "p"⟩, ⟨.object, .namedNode "o"⟩, ⟨.graph, .namedNode "g"⟩]
        none
      = ⟨none, some (.namedNode "p"), some (.namedNode "o"), some (.namedNode "g")⟩
    ∧ collectNamedTerms
        [⟨.subject, .namedNode "s"⟩, ⟨.predicate, .namedNode "p"⟩, ⟨.object, .namedNode "o"⟩]
        none
      = ⟨some (.namedNode "s"), some (.namedNode "p"), some (.namedNode "o"),
         some .defaultGraph⟩ :=
  ⟨rfl, rfl⟩

/-- The canonical positions absent from the collected elements, in the
fixed order. -/
def missingNames (e : Elements) : List QuadTermName :=
  QUAD_TERM_NAMES.filter (fun k => (e.get k).isNone)

/-- C8 amended: collectNamedTerms raises no error.  The default callback is
invoked exactly for the positions missing from the input, in the order
subject, predicate, object, graph; afterwards the four possibly-absent
values go to the factory, which replaces an absent graph by the default
graph and otherwise keeps absent positions absent in the constructed quad
object (a partial result instead of an error). -/
theorem collectNamedTerms_defaulting_behaviour (namedTerms : List INamedTerm)
    (f : QuadTermName → Term) :
    applyDefaultsEff (collectElements namedTerms)
        (fun (l : List QuadTermName) k => (f k, l ++ [k])) []
      = (applyDefaults (collectElements namedTerms) f,
         missingNames (collectElements namedTerms))
    ∧ (∀ cb, collectNamedTerms namedTerms cb =
        (let e := match cb with
          | some g => applyDefaults (collectElements namedTerms) g
          | none => collectElements namedTerms
         ⟨e.subject, e.predicate, e.object, some (e.graph.getD .defaultGraph)⟩)) := by
  constructor
  · obtain ⟨s, p, o, g⟩ := collectElements namedTerms
    cases s <;> cases p <;> cases o <;> cases g <;>
      simp [applyDefaultsEff, applyDefaults, missingNames, QUAD_TERM_NAMES, Elements.get]
  · intro cb
    cases cb <;> rfl

/-- Every term matches itself under the legacy matcher. -/
theorem matchTerm_self (t : Term) : matchTerm t (some t) = true := by
  induction t with
  | quad s p o g ihs ihp iho ihg => simp [matchTerm, ihs, ihp, iho, ihg]
  | var v => simp [matchTerm, Term.termType]
  | namedNode v => simp [matchTerm]
  | blankNode v => simp [matchTerm]
  | literal v l d => simp [matchTerm]
  | defaultGraph => simp [matchTerm]

/-- Characterization of a single legacy term match against a present
pattern term: pattern is a Variable, or both terms are Quads matching
recursively, or the terms are structurally equal. -/
theorem matchTerm_some_iff (tA tB : Term) :
    matchTerm tA (some tB) = true ↔
      tB.isVariable = true
      ∨ (∃ s2 p2 o2 g2 s1 p1 o1 g1, tB = .quad s2 p2 o2 g2 ∧ tA = .quad s1 p1 o1 g1
          ∧ matchPatternComplete ⟨s1, p1, o1, g1⟩ ⟨s2, p2, o2, g2⟩ = true)
      ∨ tB = tA := by
  cases tB with
  | quad s2 p2 o2 g2 =>
    cases tA with
    | quad s1 p1 o1 g1 =>
      constructor
      · intro h
        simp only [matchTerm, Term.termType, Bool.or_eq_true, decide_eq_true_eq] at h
        rcases h with (hv | hrec) | heq
        · simp at hv
        · exact Or.inr (Or.inl ⟨s2, p2, o2, g2, s1, p1, o1, g1, rfl, rfl, by
            simpa [matchPatternComplete, matchPattern] using hrec⟩)
        · exact Or.inr (Or.inr heq)
      · rintro (hv | ⟨s2', p2', o2', g2', s1', p1', o1', g1', hB, hA, hm⟩ | heq)
        · simp [Term.isVariable] at hv
        · obtain ⟨hb1, hb2, hb3, hb4⟩ := Term.quad.inj hB
          obtain ⟨ha1, ha2, ha3, ha4⟩ := Term.quad.inj hA
          subst hb1; subst hb2; subst hb3; subst hb4
          subst ha1; subst ha2; subst ha3; subst ha4
          simp only [matchPatternComplete, matchPattern, Quad.get] at hm
          simp [matchTerm, Term.termType, hm]
        · rw [heq]
          exact matchTerm_self _
    | namedNode v => simp [matchTerm, Term.isVariable, Term.termType]
    | blankNode v => simp [matchTerm, Term.isVariable, Term.termType]
    | literal v l d => simp [matchTerm, Term.isVariable, Term.termType]
    | var v => simp [matchTerm, Term.isVariable, Term.termType]
    | defaultGraph => simp [matchTerm, Term.isVariable, Term.termType]
  | namedNode v => cases tA <;> simp [matchTerm, Term.isVariable, Term.termType]
  | blankNode v => cases tA <;> simp [matchTerm, Term.isVariable, Term.termType]
  | literal v l d => cases tA <;> simp [matchTerm, Term.isVariable, Term.termType]
  | var v => cases tA <;> simp [matchTerm, Term.isVariable, Term.termType]
  | defaultGraph => cases tA <;> simp [matchTerm, Term.isVariable, Term.termType]

/-- C9: the legacy matchPatternComplete treats pattern Variables as pure
position-local wildcards without cross-position consistency: it succeeds
exactly when each position has a Variable pattern term, or two Quads that
recursively match, or equal terms; in particular the pattern (?x, p, ?x, g)
matches (a, p, b, g) for all a and b, even unequal ones. -/
theorem matchPatternComplete_wildcard_semantics :
    (∀ (q pat : Quad), matchPatternComplete q pat = true ↔
      ∀ k : QuadTermName, (pat.get k).isVariable = true
        ∨ (∃ s2 p2 o2 g2 s1 p1 o1 g1, pat.get k = .quad s2 p2 o2 g2
            ∧ q.get k = .quad s1 p1 o1 g1
            ∧ matchPatternComplete ⟨s1, p1, o1, g1⟩ ⟨s2, p2, o2, g2⟩ = true)
        ∨ pat.get k = q.get k)
    ∧ (∀ (x : String) (a b pp gg : Term),
        matchPatternComplete ⟨a, pp, b, gg⟩ ⟨.var x, pp, .var x, gg⟩ = true) := by
  constructor
  · intro q pat
    constructor
    · intro h k
      simp only [matchPatternComplete, matchPattern, Bool.and_eq_true] at h
      obtain ⟨⟨⟨h1, h2⟩, h3⟩, h4⟩ := h
      cases k with
      | subject => simpa [Quad.get] using (matchTerm_some_iff q.subject pat.subject).mp h1
      | predicate =>
        simpa [Quad.get] using (matchTerm_some_iff q.predicate pat.predicate).mp h2
      | object => simpa [Quad.get] using (matchTerm_some_iff q.object pat.object).mp h3
      | graph => simpa [Quad.get] using (matchTerm_some_iff q.graph pat.graph).mp h4
    · intro h
      simp only [matchPatternComplete, matchPattern, Bool.and_eq_true]
      exact ⟨⟨⟨(matchTerm_some_iff q.subject pat.subject).mpr
          (by simpa [Quad.get] using h .subject),
        (matchTerm_some_iff q.predicate pat.predicate).mpr
          (by simpa [Quad.get] using h .predicate)⟩,
        (matchTerm_some_iff q.object pat.object).mpr
          (by simpa [Quad.get] using h .object)⟩,
        (matchTerm_some_iff q.graph pat.graph).mpr
          (by simpa [Quad.get] using h .graph)⟩
  · intro x a b pp gg
    simp [matchPatternComplete, matchPattern, matchTerm_self, matchTerm, Term.termType]

/-- C10: getTermsNested propagates the ignoreDefaultGraph flag through
every recursion level: at each quad of the nesting, the subject, predicate
and object contributions come in order and the graph contribution is
omitted exactly when the flag is set and that graph is the default graph;
the collected terms are always non-Quad leaves, as the concrete nested
example with default graphs at both levels shows. -/
theorem getTermsNested_ignoreDefaultGraph_propagation :
    (∀ (q : Quad) (ig : Bool) (t : Term), t ∈ getTermsNested q ig → t.isQuad = false)
    ∧ (∀ (q : Quad) (ig : Bool), getTermsNested q ig =
        getTermsNestedVisit q.subject ig ++ getTermsNestedVisit q.predicate ig
          ++ getTermsNestedVisit q.object ig
          ++ (if ig && q.graph.termType == "DefaultGraph" then []
              else getTermsNestedVisit q.graph ig))
    ∧ getTermsNested
        ⟨.namedNode "s", .namedNode "p",
         .quad (.namedNode "s2") (.namedNode "p2") (.namedNode "o2") .defaultGraph,
         .defaultGraph⟩ true
      = [.namedNode "s", .namedNode "p", .namedNode "s2", .namedNode "p2",
         .namedNode "o2"] := by
  refine ⟨?_, ?_, rfl⟩
  · have main : ∀ (t : Term) (ig : Bool) (u : Term),
        u ∈ getTermsNestedVisit t ig → u.isQuad = false := by
      intro t
      induction t with
      | quad s p o g ihs ihp iho ihg =>
        intro ig u hu
        simp only [getTermsNestedVisit, List.mem_append] at hu
        rcases hu with ((hu | hu) | hu) | hu
        · exact ihs ig u hu
        · exact ihp ig u hu
        · exact iho ig u hu
        · rcases hig : (ig && Term.termType g == "DefaultGraph") with _ | _ <;>
            rw [hig] at hu
          · exact ihg ig u hu
          · simp at hu
      | namedNode v => intro ig u hu; simp only [getTermsNestedVisit,
          List.mem_singleton] at hu; subst hu; rfl
      | blankNode v => intro ig u hu; simp only [getTermsNestedVisit,
          List.mem_singleton] at hu; subst hu; rfl
      | literal v l d => intro ig u hu; simp only [getTermsNestedVisit,
          List.mem_singleton] at hu; subst hu; rfl
      | var v => intro ig u hu; simp only [getTermsNestedVisit,
          List.mem_singleton] at hu; subst hu; rfl
      | defaultGraph => intro ig u hu; simp only [getTermsNestedVisit,
          List.mem_singleton] at hu; subst hu; rfl
    intro q ig t ht
    exact main q.toTerm ig t ht
  · intro q ig
    cases q
    rfl

/-- Witness for C10: the default graph nested inside the example quad is a
member of the flag-off traversal, and its membership in the flag-on
traversal fails, while every member of the flag-off traversal is a
non-Quad leaf, exemplified on the nested object term. -/
theorem getTermsNested_ignoreDefaultGraph_propagation_witness :
    Term.isQuad (.namedNode "s2") = false :=
  getTermsNested_ignoreDefaultGraph_propagation.1
    ⟨.namedNode "s", .namedNode "p",
     .quad (.namedNode "s2") (.namedNode "p2") (.namedNode "o2") .defaultGraph,
     .defaultGraph⟩ true (.namedNode "s2") (by decide)

end RdfTerms
